import Mathlib

/-!
Shallow embedding of the page-discovery / form-interaction engine of the
Visual Walkthrough Generator (src/crawler.ts, src/formHandler.ts,
src/playwright.ts, second revisions in the repository), together with
theorems settling the specification claims.

The browser (`new URL`, the DOM, navigation) is external to the repository;
it is modelled here by an explicit URL parser over `List Char` covering the
`scheme://host/path?query#fragment` shape exercised by the crawler, and by
environment records supplying the data the page evaluations would return.
All crawler-side logic (normalization, filtering, extraction pipeline,
crawl loop, screenshot loop, form-value heuristics) is translated
line-by-line from the TypeScript source.
-/

namespace VWG

/-! ## URL model (shallow embedding of the WHATWG `URL` uses in crawler.ts) -/

/-- Components of a parsed URL.  `hash` and `search` carry their leading
`#` / `?` characters, matching how the serialized text is split. -/
structure UrlParts where
  scheme : List Char
  host : List Char
  pathname : List Char
  search : List Char
  hash : List Char
deriving DecidableEq, Repr

/-- Scheme characters: ASCII letters. -/
def isSchemeCharB (c : Char) : Bool := c.isAlpha

/-- Characters allowed in a hostname in this model. -/
def isHostChar (c : Char) : Bool := c.isAlphanum || c == '.' || c == '-' || c == '_'

/-- A character that does not terminate the host component. -/
def notHostDelim (c : Char) : Bool := !(c == '/') && !(c == '?') && !(c == '#')

/-- A character that does not terminate the path component. -/
def notPathDelim (c : Char) : Bool := !(c == '?') && !(c == '#')

/-- A character that does not start the fragment. -/
def notHash (c : Char) : Bool := !(c == '#')

/-- Parse everything after `scheme://`.  Fails when the host is empty or
contains an invalid character, the cases where `new URL` throws on the
inputs this crawler produces. -/
def parseRest (sch : List Char) (r2 : List Char) : Option UrlParts :=
  let host := r2.takeWhile notHostDelim
  let r3 := r2.dropWhile notHostDelim
  if host = [] then none
  else if host.all isHostChar then
    let path := r3.takeWhile notPathDelim
    let r4 := r3.dropWhile notPathDelim
    let search := r4.takeWhile notHash
    let hash := r4.dropWhile notHash
    some ⟨sch, host, if path = [] then ['/'] else path, search, hash⟩
  else none

/-- Model of `new URL(u)`: `none` means the constructor throws. -/
def parseUrlChars (l : List Char) : Option UrlParts :=
  let sch := l.takeWhile isSchemeCharB
  let rest := l.dropWhile isSchemeCharB
  if sch = [] then none
  else if rest.take 3 = [':', '/', '/'] then parseRest sch (rest.drop 3)
  else none

/-- Serialization of parsed components, model of `URL#toString`. -/
def serializeChars (p : UrlParts) : List Char :=
  p.scheme ++ ':' :: '/' :: '/' :: (p.host ++ (p.pathname ++ (p.search ++ p.hash)))

/-- `URL#origin`: `scheme://host`. -/
def originChars (p : UrlParts) : List Char :=
  p.scheme ++ ':' :: '/' :: '/' :: p.host

/-- `URL#protocol`: `scheme:`. -/
def protocolChars (p : UrlParts) : List Char := p.scheme ++ [':']

/-- Canonical shape of parser outputs; exactly what round-trips through
serialization. -/
def Canon (p : UrlParts) : Prop :=
  p.scheme ≠ [] ∧ p.scheme.all isSchemeCharB ∧
  p.host ≠ [] ∧ p.host.all isHostChar ∧
  (∃ t, p.pathname = '/' :: t) ∧ p.pathname.all notPathDelim ∧
  (p.search = [] ∨ ∃ t, p.search = '?' :: t) ∧ p.search.all notHash ∧
  (p.hash = [] ∨ ∃ t, p.hash = '#' :: t)

lemma notHostDelim_false {c : Char} (h : notHostDelim c = false) :
    c = '/' ∨ c = '?' ∨ c = '#' := by
  by_contra hq
  push_neg at hq
  simp [notHostDelim, beq_eq_false_iff_ne.mpr hq.1, beq_eq_false_iff_ne.mpr hq.2.1,
    beq_eq_false_iff_ne.mpr hq.2.2] at h

lemma notPathDelim_false {c : Char} (h : notPathDelim c = false) :
    c = '?' ∨ c = '#' := by
  by_contra hq
  push_neg at hq
  simp [notPathDelim, beq_eq_false_iff_ne.mpr hq.1, beq_eq_false_iff_ne.mpr hq.2] at h

lemma notHash_false {c : Char} (h : notHash c = false) : c = '#' := by
  by_contra hq
  simp [notHash, beq_eq_false_iff_ne.mpr hq] at h

lemma isHostChar_notHostDelim {c : Char} (h : isHostChar c = true) :
    notHostDelim c = true := by
  cases hnb : notHostDelim c with
  | true => rfl
  | false =>
      rcases notHostDelim_false hnb with rfl | rfl | rfl <;>
        exact absurd h (by decide)

lemma takeWhile_append_stop {p : Char → Bool} {l₁ l₂ : List Char}
    (h₁ : ∀ c ∈ l₁, p c = true)
    (h₂ : ∀ c, l₂.head? = some c → p c = false) :
    (l₁ ++ l₂).takeWhile p = l₁ ∧ (l₁ ++ l₂).dropWhile p = l₂ := by
  induction l₁ with
  | nil =>
      simp only [List.nil_append]
      cases l₂ with
      | nil => simp
      | cons c t =>
          have := h₂ c rfl
          constructor
          · simp [List.takeWhile_cons, this]
          · simp [List.dropWhile_cons, this]
  | cons a l ih =>
      have ha := h₁ a (List.mem_cons_self a l)
      have ⟨ih1, ih2⟩ := ih (fun c hc => h₁ c (List.mem_cons_of_mem a hc))
      constructor
      · simp [List.takeWhile_cons, ha, ih1]
      · simp [List.dropWhile_cons, ha, ih2]

lemma parseRest_canon {sch r2 : List Char} {p : UrlParts}
    (hsch : sch ≠ [] ∧ sch.all isSchemeCharB)
    (h : parseRest sch r2 = some p) : Canon p := by
  unfold parseRest at h
  by_cases hhost : r2.takeWhile notHostDelim = []
  · rw [if_pos hhost] at h; exact absurd h (by simp)
  · rw [if_neg hhost] at h
    by_cases hchars : (r2.takeWhile notHostDelim).all isHostChar = true
    · rw [if_pos hchars, Option.some.injEq] at h
      subst h
      refine ⟨hsch.1, hsch.2, hhost, hchars, ?_, ?_, ?_, ?_, ?_⟩
      · -- pathname starts with '/'
        dsimp only
        by_cases hpath : (r2.dropWhile notHostDelim).takeWhile notPathDelim = []
        · exact ⟨[], by simp [hpath]⟩
        · simp only [hpath, if_false]
          cases hdrop : r2.dropWhile notHostDelim with
          | nil => rw [hdrop] at hpath; simp at hpath
          | cons c t =>
              have hfail : notHostDelim c = false := by
                have := List.head?_dropWhile_not notHostDelim r2
                rw [hdrop] at this
                simpa using this
              rcases notHostDelim_false hfail with rfl | rfl | rfl
              · rw [List.takeWhile_cons, if_pos (by decide)]
                exact ⟨_, rfl⟩
              · rw [hdrop] at hpath
                rw [List.takeWhile_cons, if_neg (by decide)] at hpath
                exact absurd rfl hpath
              · rw [hdrop] at hpath
                rw [List.takeWhile_cons, if_neg (by decide)] at hpath
                exact absurd rfl hpath
      · -- pathname characters contain no path delimiter
        dsimp only
        by_cases hpath : (r2.dropWhile notHostDelim).takeWhile notPathDelim = []
        · rw [if_pos hpath]; decide
        · rw [if_neg hpath]
          exact List.all_eq_true.mpr fun c hc => List.mem_takeWhile_imp hc
      · -- search shape
        dsimp only
        cases hdrop : (r2.dropWhile notHostDelim).dropWhile notPathDelim with
        | nil => exact Or.inl rfl
        | cons c t =>
            have hfail : notPathDelim c = false := by
              have := List.head?_dropWhile_not notPathDelim (r2.dropWhile notHostDelim)
              rw [hdrop] at this
              simpa using this
            rcases notPathDelim_false hfail with rfl | rfl
            · refine Or.inr ⟨List.takeWhile notHash t, ?_⟩
              rw [List.takeWhile_cons, if_pos (by decide)]
            · refine Or.inl ?_
              rw [List.takeWhile_cons, if_neg (by decide)]
      · -- search characters contain no '#'
        exact List.all_eq_true.mpr fun c hc => List.mem_takeWhile_imp hc
      · -- hash shape
        dsimp only
        cases hdrop2 : ((r2.dropWhile notHostDelim).dropWhile notPathDelim).dropWhile notHash with
        | nil => exact Or.inl rfl
        | cons c t =>
            have hfail : notHash c = false := by
              have := List.head?_dropWhile_not notHash
                ((r2.dropWhile notHostDelim).dropWhile notPathDelim)
              rw [hdrop2] at this
              simpa using this
            exact Or.inr ⟨t, by rw [notHash_false hfail]⟩
    · rw [if_neg hchars] at h; exact absurd h (by simp)

lemma parseUrlChars_canon {l : List Char} {p : UrlParts}
    (h : parseUrlChars l = some p) : Canon p := by
  unfold parseUrlChars at h
  by_cases hsch : l.takeWhile isSchemeCharB = []
  · rw [if_pos hsch] at h; exact absurd h (by simp)
  · rw [if_neg hsch] at h
    by_cases hdelim : (l.dropWhile isSchemeCharB).take 3 = [':', '/', '/']
    · rw [if_pos hdelim] at h
      exact parseRest_canon ⟨hsch, List.all_eq_true.mpr fun c hc => List.mem_takeWhile_imp hc⟩ h
    · rw [if_neg hdelim] at h; exact absurd h (by simp)

/-- Round trip: serializing canonical components and re-parsing recovers them. -/
lemma parse_serialize {p : UrlParts} (h : Canon p) :
    parseUrlChars (serializeChars p) = some p := by
  obtain ⟨hs1, hs2, hh1, hh2, ⟨pt, hpath⟩, hp2, hq, hq2, hf⟩ := h
  have hsplit : (serializeChars p).takeWhile isSchemeCharB = p.scheme ∧
      (serializeChars p).dropWhile isSchemeCharB =
        ':' :: '/' :: '/' :: (p.host ++ (p.pathname ++ (p.search ++ p.hash))) := by
    apply takeWhile_append_stop
    · exact fun c hc => List.all_eq_true.mp hs2 c hc
    · intro c hc
      simp only [List.head?_cons, Option.some.injEq] at hc
      subst hc
      simp [isSchemeCharB]
  have hhostsplit :
      (p.host ++ (p.pathname ++ (p.search ++ p.hash))).takeWhile notHostDelim = p.host ∧
      (p.host ++ (p.pathname ++ (p.search ++ p.hash))).dropWhile notHostDelim =
        p.pathname ++ (p.search ++ p.hash) :=
    takeWhile_append_stop
      (fun c hc => isHostChar_notHostDelim (List.all_eq_true.mp hh2 c hc))
      (by
        intro c hc
        rw [hpath] at hc
        simp only [List.cons_append, List.head?_cons, Option.some.injEq] at hc
        subst hc
        simp [notHostDelim])
  have hpathsplit :
      (p.pathname ++ (p.search ++ p.hash)).takeWhile notPathDelim = p.pathname ∧
      (p.pathname ++ (p.search ++ p.hash)).dropWhile notPathDelim = p.search ++ p.hash :=
    takeWhile_append_stop (fun c hc => List.all_eq_true.mp hp2 c hc)
      (by
        intro c hc
        rcases hq with hq0 | ⟨qt, hq0⟩
        · rcases hf with hf0 | ⟨ft, hf0⟩
          · rw [hq0, hf0] at hc; simp at hc
          · rw [hq0, hf0] at hc
            simp only [List.nil_append, List.head?_cons, Option.some.injEq] at hc
            subst hc; simp [notPathDelim]
        · rw [hq0] at hc
          simp only [List.cons_append, List.head?_cons, Option.some.injEq] at hc
          subst hc; simp [notPathDelim])
  have hsearchsplit : (p.search ++ p.hash).takeWhile notHash = p.search ∧
      (p.search ++ p.hash).dropWhile notHash = p.hash :=
    takeWhile_append_stop (fun c hc => List.all_eq_true.mp hq2 c hc)
      (by
        intro c hc
        rcases hf with hf0 | ⟨ft, hf0⟩
        · rw [hf0] at hc; simp at hc
        · rw [hf0] at hc
          simp only [List.head?_cons, Option.some.injEq] at hc
          subst hc; simp [notHash])
  have hpne : p.pathname ≠ [] := by rw [hpath]; simp
  unfold parseUrlChars
  rw [hsplit.2, hsplit.1, if_neg hs1,
    if_pos (show (':' :: '/' :: '/' :: (p.host ++ (p.pathname ++ (p.search ++ p.hash)))).take 3
      = [':', '/', '/'] from rfl)]
  have hdrop3 :
      (':' :: '/' :: '/' :: (p.host ++ (p.pathname ++ (p.search ++ p.hash)))).drop 3
      = p.host ++ (p.pathname ++ (p.search ++ p.hash)) := rfl
  rw [hdrop3]
  unfold parseRest
  dsimp only
  rw [hhostsplit.1, hhostsplit.2, if_neg hh1, if_pos hh2,
    hpathsplit.1, hpathsplit.2, hsearchsplit.1, hsearchsplit.2, if_neg hpne]

/-! ## String helpers (JS `includes`, `startsWith`, `toLowerCase`) -/

/-- Substring scan over character lists. -/
def listContains (l pat : List Char) : Bool :=
  match l with
  | [] => pat.isEmpty
  | _ :: t => if pat.isPrefixOf l then true else listContains t pat

/-- JS `String#includes`: substring containment. -/
def strIncludes (s pat : String) : Bool := listContains s.toList pat.toList

/-- JS `String#startsWith`. -/
def strStarts (s pre : String) : Bool := pre.toList.isPrefixOf s.toList

/-- JS `String#toLowerCase` (ASCII behaviour). -/
def lowerStr (s : String) : String := String.mk (s.toList.map Char.toLower)

/-! ## `normalizeUrl` (crawler.ts lines 310-323) -/

/-- The trailing-slash step of `normalizeUrl`: if the pathname is not `/`
and ends with `/`, drop a single trailing slash. -/
def dropTrailingSlashPath (path : List Char) : List Char :=
  if path ≠ ['/'] ∧ path.getLast? = some '/' then path.dropLast else path

/--
```
function normalizeUrl(url) {
  try {
    const parsed = new URL(url);
    parsed.hash = "";
    if (parsed.pathname !== "/" && parsed.pathname.endsWith("/")) {
      parsed.pathname = parsed.pathname.slice(0, -1);
    }
    return parsed.toString();
  } catch { return url; }
}
```
-/
def normalizeUrl (url : String) : String :=
  match parseUrlChars url.toList with
  | none => url
  | some p =>
      String.mk (serializeChars
        { p with pathname := dropTrailingSlashPath p.pathname, hash := [] })

/-! ## `shouldIncludeUrl` and `isSameDomain` (crawler.ts lines 328-360) -/

/-- The crawl configuration surface of `CrawlOptions` (crawler.ts 290-299).
`formFields` is irrelevant to the modelled state transitions and omitted. -/
structure CrawlOptions where
  maxDepth : Nat
  maxPages : Nat
  sameDomainOnly : Bool
  excludePatterns : List String
  includePatterns : List String
  routesFromCode : List String
  autoFillForms : Option Bool
deriving Repr

/--
```
function shouldIncludeUrl(url, options) {
  for (const pattern of options.excludePatterns)
    if (url.includes(pattern)) return false;
  if (options.includePatterns.length > 0) {
    const matches = options.includePatterns.some((p) => url.includes(p));
    if (!matches) return false;
  }
  return true;
}
```
-/
def shouldIncludeUrl (url : String) (options : CrawlOptions) : Bool :=
  if options.excludePatterns.any (fun pat => strIncludes url pat) then false
  else if options.includePatterns.length > 0 &&
      !(options.includePatterns.any (fun pat => strIncludes url pat)) then false
  else true

/--
```
function isSameDomain(url1, url2) {
  try { return new URL(url1).hostname === new URL(url2).hostname; }
  catch { return false; }
}
```
-/
def isSameDomain (url1 url2 : String) : Bool :=
  match parseUrlChars url1.toList, parseUrlChars url2.toList with
  | some p1, some p2 => p1.host = p2.host
  | _, _ => false

/-! ## Facts about `normalizeUrl` -/

lemma dropTrailingSlashPath_canon {path : List Char} (h1 : ∃ t, path = '/' :: t)
    (h2 : path.all notPathDelim = true) :
    (∃ t, dropTrailingSlashPath path = '/' :: t) ∧
      (dropTrailingSlashPath path).all notPathDelim = true := by
  obtain ⟨t, rfl⟩ := h1
  unfold dropTrailingSlashPath
  by_cases hc : ('/' :: t ≠ ['/'] ∧ ('/' :: t).getLast? = some '/')
  · rw [if_pos hc]
    have ht : t ≠ [] := by
      intro h0
      exact hc.1 (by rw [h0])
    constructor
    · exact ⟨t.dropLast, by rw [List.dropLast_cons_of_ne_nil ht]⟩
    · exact List.all_eq_true.mpr fun c hc' =>
        List.all_eq_true.mp h2 c (List.dropLast_subset _ hc')
  · rw [if_neg hc]
    exact ⟨⟨t, rfl⟩, h2⟩

/-- The parsed form of a normalization result: the same components with the
fragment cleared and the trailing-slash rule applied to the path. -/
lemma parse_normalizeUrl {url : String} {p : UrlParts}
    (h : parseUrlChars url.toList = some p) :
    parseUrlChars (normalizeUrl url).toList =
      some { p with pathname := dropTrailingSlashPath p.pathname, hash := [] } := by
  unfold normalizeUrl
  rw [h]
  have hc := parseUrlChars_canon h
  obtain ⟨hs1, hs2, hh1, hh2, hpshape, hp2, hq, hq2, hf⟩ := hc
  have hdc := dropTrailingSlashPath_canon hpshape hp2
  have : (String.mk (serializeChars
      { p with pathname := dropTrailingSlashPath p.pathname, hash := [] })).toList =
      serializeChars { p with pathname := dropTrailingSlashPath p.pathname, hash := [] } := rfl
  rw [this]
  exact parse_serialize ⟨hs1, hs2, hh1, hh2, hdc.1, hdc.2, hq, hq2, Or.inl rfl⟩

/-- Malformed inputs pass through `normalizeUrl` unchanged. -/
lemma normalizeUrl_malformed {url : String} (h : parseUrlChars url.toList = none) :
    normalizeUrl url = url := by
  unfold normalizeUrl
  rw [h]

/-! ## Field-value heuristic generator (formHandler.ts `generateValueForField`) -/

/-- The metadata handed to `generateValueForField`. -/
structure FieldInfo where
  type : String
  name : String
  placeholder : String
  label : String
deriving DecidableEq, Repr

/-- Line-by-line translation of `generateValueForField` (formHandler.ts):
the rule table is evaluated in source order — name, email, password, phone,
number/age, company, address, city, country, generic text, else empty. -/
def generateValueForField (info : FieldInfo) : String :=
  let lowerName := lowerStr info.name
  let lowerLabel := lowerStr info.label
  let lowerPlaceholder := lowerStr info.placeholder
  if strIncludes lowerName "name" || strIncludes lowerLabel "name" ||
      strIncludes lowerPlaceholder "name" then "John Doe"
  else if info.type == "email" || strIncludes lowerName "email" ||
      strIncludes lowerLabel "email" || strIncludes lowerPlaceholder "email" then
    "test@example.com"
  else if info.type == "password" then "TestPassword123!"
  else if strIncludes lowerName "phone" || strIncludes lowerLabel "phone" ||
      strIncludes lowerPlaceholder "phone" || strIncludes lowerName "tel" then
    "+1234567890"
  else if info.type == "number" || strIncludes lowerName "age" then "25"
  else if strIncludes lowerName "company" || strIncludes lowerName "organization" ||
      strIncludes lowerLabel "company" then "Test Company"
  else if strIncludes lowerName "address" || strIncludes lowerLabel "address" then
    "123 Test Street"
  else if strIncludes lowerName "city" || strIncludes lowerLabel "city" then "Test City"
  else if strIncludes lowerName "country" || strIncludes lowerLabel "country" then
    "United States"
  else if info.type == "text" || info.type == "textarea" then "Test Value"
  else ""

/-! ## Link extraction pipeline (crawler.ts `extractLinks`, lines 459-484)

The raw candidate strings collected from the rendered DOM are supplied by
the environment; the resolution / normalization / dedup loop below is the
crawler's own code.
-/

/-- `URL#origin` of a base as a string. -/
def originStr (b : UrlParts) : String := String.mk (originChars b)

/-- `URL#protocol` of a base as a string. -/
def protocolStr (b : UrlParts) : String := String.mk (protocolChars b)

/-- The base path up to and including the last `/` (used when resolving a
relative reference against the base URL). -/
def dirOf (path : List Char) : List Char :=
  (path.reverse.dropWhile (fun c => !(c == '/'))).reverse

/-- Does the candidate begin with `letters://`, i.e. carry its own scheme? -/
def hasSchemeDelim (l : List Char) : Bool :=
  !(l.takeWhile isSchemeCharB).isEmpty &&
    (l.dropWhile isSchemeCharB).take 3 == [':', '/', '/']

/-- Model of `new URL(link, base)` for the fall-through branch of the
resolution loop: a candidate with its own scheme is parsed absolutely
(`none` = the constructor throws); otherwise the candidate is resolved
against the base's directory. -/
def resolveRel (link : String) (b : UrlParts) : Option UrlParts :=
  if hasSchemeDelim link.toList then parseUrlChars link.toList
  else parseUrlChars (originChars b ++ dirOf b.pathname ++ link.toList)

/-- One iteration of the resolution loop of `extractLinks`:
```
let absoluteUrl;
if (link.startsWith("http://") || link.startsWith("https://")) absoluteUrl = link;
else if (link.startsWith("//")) absoluteUrl = `${baseUrlObj.protocol}${link}`;
else if (link.startsWith("/")) absoluteUrl = `${baseUrlObj.origin}${link}`;
else absoluteUrl = new URL(link, baseUrl).toString();
const normalized = normalizeUrl(absoluteUrl);
normalizedLinks.push(normalized);
```
`none` means the iteration threw and pushed nothing. -/
def resolveCandidate (b : UrlParts) (link : String) : Option String :=
  if strStarts link "http://" || strStarts link "https://" then
    some (normalizeUrl link)
  else if strStarts link "//" then
    some (normalizeUrl (protocolStr b ++ link))
  else if strStarts link "/" then
    some (normalizeUrl (originStr b ++ link))
  else
    (resolveRel link b).map (fun r => normalizeUrl (String.mk (serializeChars r)))

/-- First-occurrence deduplication with a seen-set accumulator. -/
def jsDedupAux (seen : List String) : List String → List String
  | [] => []
  | x :: xs =>
      if seen.contains x then jsDedupAux seen xs
      else x :: jsDedupAux (x :: seen) xs

/-- First-occurrence deduplication, the model of `[...new Set(xs)]`. -/
def jsDedup (l : List String) : List String := jsDedupAux [] l

/-- The pure tail of `extractLinks`: resolve, normalize and dedup the raw
candidates against a successfully parsed base. -/
def processLinks (b : UrlParts) (links : List String) : List String :=
  jsDedup (links.filterMap (resolveCandidate b))

/-! ## Frontier / crawl orchestrator (crawler.ts `crawlWebsite`, lines 494-699)

The browser session is abstracted by `CrawlEnv`: navigation outcomes, the
raw link strings each page's DOM evaluation returns, and the form detector
/ submitter results.  Everything else below is the crawler's own logic.
-/

/-- The navigation attempts of the crawl loop (crawler.ts 576-595): a
`domcontentloaded` attempt, then a `load` attempt, each with the fixed
30000 ms timeout. -/
def crawlNavChain : List (String × Nat) := [("domcontentloaded", 30000), ("load", 30000)]

/-- External browser behaviour during a crawl. -/
structure CrawlEnv where
  /-- Does `page.goto(url, waitUntil, timeout)` succeed? -/
  nav : String → String → Nat → Bool
  /-- Does the DOM evaluation inside `extractLinks` succeed on this page? -/
  evalOk : String → Bool
  /-- Raw candidate strings the DOM evaluation returns on this page. -/
  pageRawLinks : String → List String
  /-- `detectForms` result on this page (already false on evaluation errors). -/
  hasForms : String → Bool
  /-- Did `autoFillForm` fire a submission on this page? -/
  formFill : String → Bool
  /-- `page.url()` after a fired submission on this page. -/
  afterUrl : String → String

/-- The degrading navigation chain: first attempt, then the fallback. -/
def tryNav (env : CrawlEnv) (url : String) : Bool :=
  crawlNavChain.any (fun a => env.nav url a.1 a.2)

/-- `extractLinks(page, baseUrl)`: returns `[]` when the DOM evaluation or
the parse of the base throws (the outer catch), otherwise the resolved,
normalized, deduplicated candidates. -/
def extractLinksM (env : CrawlEnv) (pageUrl base : String) : List String :=
  if !(env.evalOk pageUrl) then []
  else
    match parseUrlChars base.toList with
    | none => []
    | some b => processLinks b (env.pageRawLinks pageUrl)

/-- Is auto-fill enabled?  Source: `options.autoFillForms !== false`. -/
def autoFillEnabled (options : CrawlOptions) : Bool :=
  !(options.autoFillForms == some false)

/-- Mutable state of the crawl loop. -/
structure CrawlState where
  toVisit : List (String × Nat)
  visited : List String
  discovered : List String
deriving DecidableEq, Repr

/-- One iteration of the `while` loop of `crawlWebsite` (crawler.ts
530-683), processing the head of the queue. -/
def crawlStep (env : CrawlEnv) (options : CrawlOptions) (startUrl : String)
    (s : CrawlState) : CrawlState :=
  match s.toVisit with
  | [] => s
  | (url, depth) :: rest =>
    let normalizedUrl := normalizeUrl url
    -- skip if already visited
    if s.visited.contains normalizedUrl then ⟨rest, s.visited, s.discovered⟩
    -- skip if depth exceeded
    else if options.maxDepth < depth then ⟨rest, s.visited, s.discovered⟩
    -- skip if not same domain (if required)
    else if options.sameDomainOnly && !(isSameDomain normalizedUrl startUrl) then
      ⟨rest, s.visited, s.discovered⟩
    -- skip if excluded by patterns
    else if !(shouldIncludeUrl normalizedUrl options) then
      ⟨rest, s.visited, s.discovered⟩
    else
      -- mark as visited, append to discovered
      let visited' := s.visited ++ [normalizedUrl]
      let discovered' := s.discovered ++ [normalizedUrl]
      -- reached max pages: break (the loop guard also stops the loop)
      if options.maxPages ≤ discovered'.length then ⟨rest, visited', discovered'⟩
      -- at max depth: don't extract links
      else if options.maxDepth ≤ depth then ⟨rest, visited', discovered'⟩
      -- navigation chain failed: skip link extraction
      else if !(tryNav env url) then ⟨rest, visited', discovered'⟩
      else
        -- after a fired form submission the session's page may have moved
        let page :=
          if autoFillEnabled options && env.hasForms url && env.formFill url then
            env.afterUrl url
          else url
        let links := extractLinksM env page url
        let newItems :=
          (links.filter (fun link =>
            !(visited'.contains link) &&
            !(options.sameDomainOnly && !(isSameDomain link startUrl)) &&
            shouldIncludeUrl link options)).map (fun link => (link, depth + 1))
        ⟨rest ++ newItems, visited', discovered'⟩

/-- The `while` guard: `toVisit.length > 0 && discovered.length < maxPages`. -/
def loopCond (options : CrawlOptions) (s : CrawlState) : Bool :=
  !s.toVisit.isEmpty && s.discovered.length < options.maxPages

/-- Fuel-indexed iteration of the crawl loop; `none` means the fuel ran out
before the loop condition failed (an incomplete run). -/
def crawlLoop (env : CrawlEnv) (options : CrawlOptions) (startUrl : String) :
    Nat → CrawlState → Option CrawlState
  | 0, s => if loopCond options s then none else some s
  | n + 1, s =>
      if loopCond options s then
        crawlLoop env options startUrl n (crawlStep env options startUrl s)
      else some s

/-- Seeding of `routesFromCode` (crawler.ts 509-528).  `none` models the
uncaught exception thrown when a route resolution fails. -/
def seedGo (b : UrlParts) (startUrl : String) :
    List String → List String → Option (List (String × Nat))
  | [], _ => some []
  | route :: rs, added =>
      let routeUrl? : Option String :=
        if strStarts route "/" then some (originStr b ++ route)
        else (resolveRel route b).map (fun r => String.mk (serializeChars r))
      match routeUrl? with
      | none => none
      | some routeUrl =>
          let normalizedRoute := normalizeUrl routeUrl
          if !(added.contains normalizedRoute) && isSameDomain normalizedRoute startUrl then
            (seedGo b startUrl rs (normalizedRoute :: added)).map
              (fun q => (normalizedRoute, 0) :: q)
          else seedGo b startUrl rs added

/-- Routes-from-code seeding; skipped entirely when the list is empty.
`new URL(startUrl)` is evaluated outside any try/catch, so a malformed
start URL with a non-empty route list throws (`none`). -/
def seedRoutes (options : CrawlOptions) (startUrl : String) :
    Option (List (String × Nat)) :=
  if options.routesFromCode.isEmpty then some []
  else
    match parseUrlChars startUrl.toList with
    | none => none
    | some b => seedGo b startUrl options.routesFromCode []

/-- The `CrawlResult` shape returned by `crawlWebsite`. -/
structure CrawlResultM where
  urls : List String
  discovered : Nat
  skipped : Nat
deriving DecidableEq, Repr

/-- `crawlWebsite(page, startUrl, options)` under a given environment and
fuel bound.  `none` models either an incomplete run (fuel) or the uncaught
seeding exception. -/
def crawlWebsiteM (env : CrawlEnv) (options : CrawlOptions) (startUrl : String)
    (fuel : Nat) : Option CrawlResultM :=
  match seedRoutes options startUrl with
  | none => none
  | some seeded =>
      (crawlLoop env options startUrl fuel
          ⟨(normalizeUrl startUrl, 0) :: seeded, [], []⟩).map
        (fun s =>
          let uniqueUrls := jsDedup (s.discovered.map normalizeUrl)
          ⟨uniqueUrls, uniqueUrls.length, s.visited.length - s.discovered.length⟩)

/-! ## Screenshot collaborator (`captureScreenshots`, playwright.ts lines 578-834)

Only the URL bookkeeping is modelled: the `capturedUrls` dedup set, the
form fill/submit step with its before/after tracking, and the result list
(file names and timestamps are I/O and irrelevant to the claims).
-/

/-- External browser behaviour during screenshot capture. -/
structure ShotEnv where
  /-- Whole navigation chain plus the in-page steps up to form handling
  succeed for this URL (the outer catch otherwise). -/
  navOk : String → Bool
  /-- `detectForms` result on this page. -/
  hasForm : String → Bool
  /-- Did `autoFillForm` fire a submission on this page? -/
  fillOk : String → Bool
  /-- `page.url()` after the submission settles. -/
  afterUrl : String → String

/-- One entry of the result list (`ScreenshotResult` without file fields). -/
structure ShotItem where
  url : String
  hasForm : Bool
  usedAfterForm : Bool
deriving DecidableEq, Repr

/-- Mutable state of the capture loop. -/
structure ShotState where
  captured : List String
  results : List ShotItem
deriving DecidableEq, Repr

/-- One iteration of the capture loop (playwright.ts 603-827): skip when the
normalized URL was already captured; otherwise capture, run the form cycle
when present, and — when the submission changed the page's normalized URL —
register the new URL into the captured set without re-queuing it. -/
def shotStep (env : ShotEnv) (autoFillCfg : Option Bool) (s : ShotState)
    (url : String) : ShotState :=
  let normalizedUrl := normalizeUrl url
  if s.captured.contains normalizedUrl then s
  else
    let s1 : ShotState := ⟨s.captured ++ [normalizedUrl], s.results⟩
    if !(env.navOk url) then s1
    else if env.hasForm url && !(autoFillCfg == some false) then
      if env.fillOk url then
        let currentUrl := normalizeUrl (env.afterUrl url)
        let originalNormalized := normalizeUrl url
        let finalUrl := if currentUrl ≠ originalNormalized then currentUrl else url
        let s2 : ShotState := ⟨s1.captured, s1.results ++ [⟨finalUrl, true, true⟩]⟩
        if currentUrl ≠ originalNormalized then
          ⟨s2.captured ++ [currentUrl], s2.results⟩
        else s2
      else ⟨s1.captured, s1.results ++ [⟨url, true, false⟩]⟩
    else ⟨s1.captured, s1.results ++ [⟨url, false, false⟩]⟩

/-- The full capture loop over the URL list. -/
def shotRun (env : ShotEnv) (autoFillCfg : Option Bool) (s : ShotState)
    (urls : List String) : ShotState :=
  urls.foldl (shotStep env autoFillCfg) s

/-! ## Helper lemmas -/

lemma dropTrailingSlashPath_idem {path : List Char}
    (h : ¬ List.IsSuffix ['/', '/'] path) :
    dropTrailingSlashPath (dropTrailingSlashPath path) = dropTrailingSlashPath path := by
  unfold dropTrailingSlashPath
  by_cases h1 : (path ≠ ['/'] ∧ path.getLast? = some '/')
  · rw [if_pos h1]
    have hne : path ≠ [] := by
      intro h0
      rw [h0] at h1
      simp at h1
    have hlast : path.getLast hne = '/' := by
      have := List.getLast?_eq_getLast path hne
      rw [h1.2] at this
      exact (Option.some.injEq _ _ ▸ this.symm)
    have hsplit : path.dropLast ++ ['/'] = path := by
      rw [← hlast]
      exact List.dropLast_append_getLast hne
    by_cases h2 : (path.dropLast ≠ ['/'] ∧ path.dropLast.getLast? = some '/')
    · exfalso
      have hne2 : path.dropLast ≠ [] := by
        intro h0
        rw [h0] at h2
        simp at h2
      have hlast2 : path.dropLast.getLast hne2 = '/' := by
        have := List.getLast?_eq_getLast path.dropLast hne2
        rw [h2.2] at this
        exact (Option.some.injEq _ _ ▸ this.symm)
      have hsplit2 : path.dropLast.dropLast ++ ['/'] = path.dropLast := by
        rw [← hlast2]
        exact List.dropLast_append_getLast hne2
      apply h
      refine ⟨path.dropLast.dropLast, ?_⟩
      calc path.dropLast.dropLast ++ ['/', '/']
          = (path.dropLast.dropLast ++ ['/']) ++ ['/'] := by simp
        _ = path.dropLast ++ ['/'] := by rw [hsplit2]
        _ = path := hsplit
    · rw [if_neg h2]
  · rw [if_neg h1, if_neg h1]

/-- Conditional idempotence of `normalizeUrl`: holds on malformed inputs and
on well-formed inputs whose path does not end in a double slash. -/
lemma normalizeUrl_idem_of {u : String} {p : UrlParts}
    (hp : parseUrlChars u.toList = some p)
    (hds : ¬ List.IsSuffix ['/', '/'] p.pathname) :
    normalizeUrl (normalizeUrl u) = normalizeUrl u := by
  have h1 := parse_normalizeUrl hp
  conv_lhs => rw [normalizeUrl]
  rw [h1]
  have h2 : dropTrailingSlashPath (dropTrailingSlashPath p.pathname) =
      dropTrailingSlashPath p.pathname := dropTrailingSlashPath_idem hds
  rw [normalizeUrl, hp]
  simp [h2]

lemma normalizeUrl_idem_malformed {u : String}
    (hp : parseUrlChars u.toList = none) :
    normalizeUrl (normalizeUrl u) = normalizeUrl u := by
  rw [normalizeUrl_malformed hp, normalizeUrl_malformed hp]

lemma jsDedupAux_nodup (l : List String) :
    ∀ seen, (jsDedupAux seen l).Nodup ∧ ∀ x ∈ jsDedupAux seen l, x ∉ seen := by
  induction l with
  | nil => intro seen; simp [jsDedupAux]
  | cons x xs ih =>
      intro seen
      unfold jsDedupAux
      by_cases hx : seen.contains x
      · rw [if_pos hx]
        exact ih seen
      · rw [if_neg hx]
        have ⟨ihn, ihm⟩ := ih (x :: seen)
        refine ⟨List.nodup_cons.mpr ⟨?_, ihn⟩, ?_⟩
        · intro hmem
          exact ihm x hmem (List.mem_cons_self x seen)
        · intro y hy hyseen
          rcases List.mem_cons.mp hy with rfl | hy'
          · exact hx (by simpa using hyseen)
          · exact ihm y hy' (List.mem_cons_of_mem x hyseen)

lemma jsDedup_nodup (l : List String) : (jsDedup l).Nodup :=
  (jsDedupAux_nodup l []).1

lemma jsDedupAux_length_le (l : List String) :
    ∀ seen, (jsDedupAux seen l).length ≤ l.length := by
  induction l with
  | nil => intro seen; simp [jsDedupAux]
  | cons x xs ih =>
      intro seen
      unfold jsDedupAux
      by_cases hx : seen.contains x
      · rw [if_pos hx]
        exact Nat.le_succ_of_le (ih seen)
      · rw [if_neg hx]
        simpa using Nat.succ_le_succ (ih (x :: seen))

lemma jsDedup_length_le (l : List String) : (jsDedup l).length ≤ l.length :=
  jsDedupAux_length_le l []

/-- Shape of one crawl-loop iteration: the queue head is consumed and the
state either skips (commits nothing) or commits exactly the head's
normalized URL to both `visited` and `discovered`, possibly enqueuing
extracted links behind the remaining queue. -/
lemma crawlStep_shape (env : CrawlEnv) (options : CrawlOptions) (startUrl : String)
    (s : CrawlState) :
    (s.toVisit = [] ∧ crawlStep env options startUrl s = s) ∨
    (∃ url depth rest, s.toVisit = (url, depth) :: rest ∧
      (crawlStep env options startUrl s = ⟨rest, s.visited, s.discovered⟩ ∨
       ∃ items, crawlStep env options startUrl s =
         ⟨rest ++ items, s.visited ++ [normalizeUrl url],
           s.discovered ++ [normalizeUrl url]⟩)) := by
  rcases s with ⟨tv, v, d⟩
  cases tv with
  | nil => exact Or.inl ⟨rfl, rfl⟩
  | cons hd rest =>
      rcases hd with ⟨url, depth⟩
      refine Or.inr ⟨url, depth, rest, rfl, ?_⟩
      show (crawlStep env options startUrl ⟨(url, depth) :: rest, v, d⟩ = ⟨rest, v, d⟩) ∨ _
      unfold crawlStep
      dsimp only
      by_cases h1 : v.contains (normalizeUrl url)
      · rw [if_pos h1]; exact Or.inl rfl
      · rw [if_neg h1]
        by_cases h2 : options.maxDepth < depth
        · rw [if_pos h2]; exact Or.inl rfl
        · rw [if_neg h2]
          by_cases h3 : (options.sameDomainOnly &&
              !(isSameDomain (normalizeUrl url) startUrl)) = true
          · rw [if_pos h3]; exact Or.inl rfl
          · rw [if_neg h3]
            by_cases h4 : (!(shouldIncludeUrl (normalizeUrl url) options)) = true
            · rw [if_pos h4]; exact Or.inl rfl
            · rw [if_neg h4]
              by_cases h5 : options.maxPages ≤ (d ++ [normalizeUrl url]).length
              · rw [if_pos h5]; exact Or.inr ⟨[], by simp⟩
              · rw [if_neg h5]
                by_cases h6 : options.maxDepth ≤ depth
                · rw [if_pos h6]; exact Or.inr ⟨[], by simp⟩
                · rw [if_neg h6]
                  by_cases h7 : (!(tryNav env url)) = true
                  · rw [if_pos h7]; exact Or.inr ⟨[], by simp⟩
                  · rw [if_neg h7]
                    exact Or.inr ⟨_, rfl⟩

lemma crawlStep_discovered_le (env : CrawlEnv) (options : CrawlOptions)
    (startUrl : String) (s : CrawlState) :
    (crawlStep env options startUrl s).discovered.length ≤ s.discovered.length + 1 := by
  rcases crawlStep_shape env options startUrl s with ⟨_, heq⟩ | ⟨url, depth, rest, _, heq | ⟨items, heq⟩⟩
  · rw [heq]; exact Nat.le_succ _
  · rw [heq]; exact Nat.le_succ _
  · rw [heq]; simp

lemma crawlStep_lockstep (env : CrawlEnv) (options : CrawlOptions)
    (startUrl : String) (s : CrawlState) (h : s.visited = s.discovered) :
    (crawlStep env options startUrl s).visited =
      (crawlStep env options startUrl s).discovered := by
  rcases crawlStep_shape env options startUrl s with ⟨_, heq⟩ | ⟨url, depth, rest, _, heq | ⟨items, heq⟩⟩
  · rw [heq]; exact h
  · rw [heq]; exact h
  · rw [heq]; simp [h]

/-- Any property preserved by `crawlStep` under the loop guard holds for the
final state of a completed loop. -/
lemma crawlLoop_inv (env : CrawlEnv) (options : CrawlOptions) (startUrl : String)
    (P : CrawlState → Prop)
    (hstep : ∀ s, loopCond options s = true → P s → P (crawlStep env options startUrl s)) :
    ∀ fuel s s', P s → crawlLoop env options startUrl fuel s = some s' → P s' := by
  intro fuel
  induction fuel with
  | zero =>
      intro s s' hP hrun
      unfold crawlLoop at hrun
      by_cases hc : loopCond options s = true
      · rw [if_pos hc] at hrun; exact absurd hrun (by simp)
      · rw [if_neg hc] at hrun
        cases hrun
        exact hP
  | succ n ih =>
      intro s s' hP hrun
      unfold crawlLoop at hrun
      by_cases hc : loopCond options s = true
      · rw [if_pos hc] at hrun
        exact ih _ _ (hstep s hc hP) hrun
      · rw [if_neg hc] at hrun
        cases hrun
        exact hP

/-! ## Concrete environments used to exercise the models -/

/-- A browser in which every navigation fails and every page is empty. -/
def trivialCrawlEnv : CrawlEnv :=
  ⟨fun _ _ _ => false, fun _ => false, fun _ => [], fun _ => false,
    fun _ => false, fun u => u⟩

/-- A site whose start page links to the same resource once with three
trailing slashes and once with one. -/
def doubleSlashEnv : CrawlEnv where
  nav := fun u _ _ => u = "http://a.com/"
  evalOk := fun _ => true
  pageRawLinks := fun u =>
    if u = "http://a.com/" then ["http://a.com/x////", "http://a.com/x//"] else []
  hasForms := fun _ => false
  formFill := fun _ => false
  afterUrl := fun u => u

/-- Options for the double-slash crawl: depth 1, no filters. -/
def doubleSlashOpts : CrawlOptions := ⟨1, 50, true, [], [], [], none⟩

/-! ## Claim theorems -/

/-- The admission decision applied to a queue item (crawler.ts 546-556):
the same-domain check, then the pattern filter, in the loop's order. -/
def urlAccepted (url startUrl : String) (options : CrawlOptions) : Bool :=
  if options.sameDomainOnly && !(isSameDomain url startUrl) then false
  else shouldIncludeUrl url options

/-- **C4.**  For every url, startUrl and config (with both URLs
well-formed so their hostnames are defined), the admission decision rejects
the url iff (a) `sameDomainOnly` is set and the hostnames differ, or
(b) some entry of `excludePatterns` is a substring of the url, or
(c) `includePatterns` is non-empty and no entry of it is a substring of the
url; otherwise the url is accepted.  The checks run in that short-circuit
order, mirrored by the definition of `urlAccepted`. -/
theorem urlAccepted_false_iff (url startUrl : String) (options : CrawlOptions)
    (pu ps : UrlParts)
    (hpu : parseUrlChars url.toList = some pu)
    (hps : parseUrlChars startUrl.toList = some ps) :
    urlAccepted url startUrl options = false ↔
      ((options.sameDomainOnly = true ∧ pu.host ≠ ps.host) ∨
       (∃ pat ∈ options.excludePatterns, strIncludes url pat = true) ∨
       (options.includePatterns ≠ [] ∧
         ∀ pat ∈ options.includePatterns, strIncludes url pat = false)) := by
  unfold urlAccepted shouldIncludeUrl isSameDomain
  rw [hpu, hps]
  dsimp only
  constructor
  · intro hfalse
    by_cases hA : (options.sameDomainOnly && !(decide (pu.host = ps.host))) = true
    · left
      have hA2 : options.sameDomainOnly = true ∧
          (!(decide (pu.host = ps.host))) = true := by simpa using hA
      exact ⟨hA2.1, by simpa using hA2.2⟩
    · rw [if_neg hA] at hfalse
      by_cases hB : options.excludePatterns.any (fun pat => strIncludes url pat) = true
      · right; left
        simpa [List.any_eq_true] using hB
      · rw [if_neg hB] at hfalse
        by_cases hC : (decide (options.includePatterns.length > 0) &&
            !(options.includePatterns.any fun pat => strIncludes url pat)) = true
        · right; right
          have hC2 : 0 < options.includePatterns.length ∧
              (options.includePatterns.any fun pat => strIncludes url pat) = false := by
            simpa using hC
          refine ⟨?_, ?_⟩
          · have hpos : 0 < options.includePatterns.length := hC2.1
            intro h0
            rw [h0] at hpos
            simp at hpos
          · intro pat hpat
            have := List.any_eq_false.mp hC2.2 pat hpat
            simpa using this
        · rw [if_neg hC] at hfalse
          exact absurd hfalse (by simp)
  · intro hrhs
    rcases hrhs with ⟨h1, h2⟩ | ⟨pat, hpat, hinc⟩ | ⟨hne, hall⟩
    · rw [if_pos (by simp [h1, h2])]
    · by_cases hA : (options.sameDomainOnly && !(decide (pu.host = ps.host))) = true
      · rw [if_pos hA]
      · rw [if_neg hA, if_pos (List.any_eq_true.mpr ⟨pat, hpat, hinc⟩)]
    · by_cases hA : (options.sameDomainOnly && !(decide (pu.host = ps.host))) = true
      · rw [if_pos hA]
      · rw [if_neg hA]
        by_cases hB : options.excludePatterns.any (fun pat => strIncludes url pat) = true
        · rw [if_pos hB]
        · rw [if_neg hB, if_pos ?_]
          have hpos : 0 < options.includePatterns.length := List.length_pos.mpr hne
          have hany : options.includePatterns.any (fun pat => strIncludes url pat) = false :=
            List.any_eq_false.mpr (fun pat hpat => by simp [hall pat hpat])
          simp [hpos, hany]

/-- Witness for C4: a cross-domain url under `sameDomainOnly`. -/
theorem urlAccepted_false_iff_witness :
    urlAccepted "http://b.com/x" "http://a.com/" ⟨3, 50, true, [], [], [], none⟩ = false ↔
      ((true = true ∧
          ("b.com".toList : List Char) ≠ ("a.com".toList : List Char)) ∨
       (∃ pat ∈ ([] : List String), strIncludes "http://b.com/x" pat = true) ∨
       (([] : List String) ≠ [] ∧
         ∀ pat ∈ ([] : List String), strIncludes "http://b.com/x" pat = false)) :=
  urlAccepted_false_iff "http://b.com/x" "http://a.com/" ⟨3, 50, true, [], [], [], none⟩
    ⟨"http".toList, "b.com".toList, "/x".toList, [], []⟩
    ⟨"http".toList, "a.com".toList, "/".toList, [], []⟩
    (by decide) (by decide)

/-- **C5.**  For every completed crawl run, regardless of how many pages the
site actually has, the length of the final discovered-pages list is at most
`maxPages`. -/
theorem crawl_discovered_le_maxPages (env : CrawlEnv) (options : CrawlOptions)
    (startUrl : String) (fuel : Nat) (r : CrawlResultM)
    (h : crawlWebsiteM env options startUrl fuel = some r) :
    r.urls.length ≤ options.maxPages := by
  unfold crawlWebsiteM at h
  cases hseed : seedRoutes options startUrl with
  | none => rw [hseed] at h; exact absurd h (by simp)
  | some seeded =>
      rw [hseed, Option.map_eq_some'] at h
      obtain ⟨s', hrun, hr⟩ := h
      have hinv : s'.discovered.length ≤ options.maxPages := by
        refine crawlLoop_inv env options startUrl
          (fun s => s.discovered.length ≤ options.maxPages) ?_ fuel _ s' (by simp) hrun
        intro s hc hP
        have hlt : s.discovered.length < options.maxPages := by
          unfold loopCond at hc
          simp only [Bool.and_eq_true, decide_eq_true_eq] at hc
          exact hc.2
        have := crawlStep_discovered_le env options startUrl s
        omega
      subst hr
      calc (jsDedup (s'.discovered.map normalizeUrl)).length
          ≤ (s'.discovered.map normalizeUrl).length := jsDedup_length_le _
        _ = s'.discovered.length := by simp
        _ ≤ options.maxPages := hinv

/-- Witness for C5: a one-page crawl with `maxPages = 1`. -/
theorem crawl_discovered_le_maxPages_witness :
    (⟨["http://a.com/"], 1, 0⟩ : CrawlResultM).urls.length ≤ 1 :=
  crawl_discovered_le_maxPages trivialCrawlEnv ⟨0, 1, false, [], [], [], none⟩
    "http://a.com/" 2 ⟨["http://a.com/"], 1, 0⟩ (by decide)

/-- **C10.**  For every completed crawl run, the `skipped` count of the
returned `CrawlResult` is exactly 0: keys are added to the visited set
precisely when the same key is appended to the discovered list, so
`visited.size - discovered.length` never counts the items the dedup, depth,
domain or pattern checks actually skipped. -/
theorem crawl_skipped_zero (env : CrawlEnv) (options : CrawlOptions)
    (startUrl : String) (fuel : Nat) (r : CrawlResultM)
    (h : crawlWebsiteM env options startUrl fuel = some r) :
    r.skipped = 0 := by
  unfold crawlWebsiteM at h
  cases hseed : seedRoutes options startUrl with
  | none => rw [hseed] at h; exact absurd h (by simp)
  | some seeded =>
      rw [hseed, Option.map_eq_some'] at h
      obtain ⟨s', hrun, hr⟩ := h
      have hinv : s'.visited = s'.discovered := by
        refine crawlLoop_inv env options startUrl
          (fun s => s.visited = s.discovered) ?_ fuel _ s' rfl hrun
        intro s _ hP
        exact crawlStep_lockstep env options startUrl s hP
      subst hr
      show s'.visited.length - s'.discovered.length = 0
      rw [hinv, Nat.sub_self]

/-- Witness for C10: a one-page crawl reports `skipped = 0`. -/
theorem crawl_skipped_zero_witness :
    (⟨["http://a.com/"], 1, 0⟩ : CrawlResultM).skipped = 0 :=
  crawl_skipped_zero trivialCrawlEnv ⟨0, 1, false, [], [], [], none⟩
    "http://a.com/" 2 ⟨["http://a.com/"], 1, 0⟩ (by decide)

/-- **C2 (counterexample).**  A field with declared type `password` whose
name contains "name" receives "John Doe", not the fixed strong-password
string: the rule table checks name before email before password, so the
password type does not always win. -/
theorem generateValueForField_counterexample :
    generateValueForField ⟨"password", "name", "", ""⟩ = "John Doe" ∧
    generateValueForField ⟨"password", "name", "", ""⟩ ≠ "TestPassword123!" ∧
    generateValueForField ⟨"password", "email", "", ""⟩ = "test@example.com" :=
  ⟨by decide, by decide, by decide⟩

/-- **C2 (amended).**  The heuristic generator evaluates the rule table in
the source order — name first, then email, then password type, then phone,
number, company, address, city, country, then generic text — with first
match winning; in particular a field of declared type `password` receives
the fixed strong-password string iff its name, label and placeholder
contain neither "name" nor "email" (case-insensitively). -/
theorem generateValueForField_password (n pl lb : String) :
    generateValueForField ⟨"password", n, pl, lb⟩ =
      (if strIncludes (lowerStr n) "name" || strIncludes (lowerStr lb) "name" ||
          strIncludes (lowerStr pl) "name" then "John Doe"
       else if strIncludes (lowerStr n) "email" || strIncludes (lowerStr lb) "email" ||
          strIncludes (lowerStr pl) "email" then "test@example.com"
       else "TestPassword123!") := by
  unfold generateValueForField
  dsimp only
  by_cases h1 : (strIncludes (lowerStr n) "name" || strIncludes (lowerStr lb) "name" ||
      strIncludes (lowerStr pl) "name") = true
  · rw [if_pos h1, if_pos h1]
  · rw [if_neg h1, if_neg h1]
    by_cases h2 : (strIncludes (lowerStr n) "email" || strIncludes (lowerStr lb) "email" ||
        strIncludes (lowerStr pl) "email") = true
    · rw [if_pos (by simp [h2]), if_pos h2]
    · rw [if_neg (by simp [h2]), if_neg h2, if_pos (by decide)]

lemma dropTrailingSlashPath_cases (path : List Char) :
    (path = ['/'] ∧ dropTrailingSlashPath path = path) ∨
    (path ≠ ['/'] ∧ path.getLast? = some '/' ∧
      path = dropTrailingSlashPath path ++ ['/']) ∨
    (path.getLast? ≠ some '/' ∧ dropTrailingSlashPath path = path) := by
  unfold dropTrailingSlashPath
  by_cases h : (path ≠ ['/'] ∧ path.getLast? = some '/')
  · rw [if_pos h]
    refine Or.inr (Or.inl ⟨h.1, h.2, ?_⟩)
    have hne : path ≠ [] := by
      intro h0
      rw [h0] at h
      simp at h
    have hlast : path.getLast hne = '/' := by
      have := List.getLast?_eq_getLast path hne
      rw [h.2] at this
      exact (Option.some.injEq _ _ ▸ this.symm)
    rw [← hlast]
    exact (List.dropLast_append_getLast hne).symm
  · rw [if_neg h]
    push_neg at h
    by_cases hr : path = ['/']
    · exact Or.inl ⟨hr, rfl⟩
    · exact Or.inr (Or.inr ⟨h hr, rfl⟩)

/-- **C8.**  For every well-formed absolute URL string, normalization strips
the fragment and removes a single trailing slash from the path unless the
path is the root; for every malformed input string, normalization returns
the original string unchanged rather than raising an error. -/
theorem normalizeUrl_spec (u : String) :
    (∀ p, parseUrlChars u.toList = some p →
      ∃ p', parseUrlChars (normalizeUrl u).toList = some p' ∧
        p'.hash = [] ∧ p'.scheme = p.scheme ∧ p'.host = p.host ∧
        p'.search = p.search ∧
        ((p.pathname = ['/'] ∧ p'.pathname = p.pathname) ∨
         (p.pathname ≠ ['/'] ∧ p.pathname.getLast? = some '/' ∧
           p.pathname = p'.pathname ++ ['/']) ∨
         (p.pathname.getLast? ≠ some '/' ∧ p'.pathname = p.pathname))) ∧
    (parseUrlChars u.toList = none → normalizeUrl u = u) := by
  constructor
  · intro p hp
    refine ⟨_, parse_normalizeUrl hp, rfl, rfl, rfl, rfl, ?_⟩
    dsimp only
    rcases dropTrailingSlashPath_cases p.pathname with
      ⟨h1, h2⟩ | ⟨h1, h2, h3⟩ | ⟨h1, h2⟩
    · exact Or.inl ⟨h1, h2⟩
    · exact Or.inr (Or.inl ⟨h1, h2, h3⟩)
    · exact Or.inr (Or.inr ⟨h1, h2⟩)
  · exact normalizeUrl_malformed

/-- Witness for C8 at `http://a.com/x/#f`: fragment stripped, one trailing
slash removed. -/
theorem normalizeUrl_spec_witness :
    ∃ p', parseUrlChars (normalizeUrl "http://a.com/x/#f").toList = some p' ∧
      p'.hash = [] ∧
      p'.scheme = ("http".toList : List Char) ∧
      p'.host = ("a.com".toList : List Char) ∧
      p'.search = ([] : List Char) ∧
      ((("/x/".toList : List Char) = ['/'] ∧ p'.pathname = "/x/".toList) ∨
       (("/x/".toList : List Char) ≠ ['/'] ∧
         ("/x/".toList : List Char).getLast? = some '/' ∧
         ("/x/".toList : List Char) = p'.pathname ++ ['/']) ∨
       ((("/x/".toList : List Char).getLast? ≠ some '/') ∧
         p'.pathname = "/x/".toList)) :=
  (normalizeUrl_spec "http://a.com/x/#f").1
    ⟨"http".toList, "a.com".toList, "/x/".toList, [], "#f".toList⟩ (by decide)

/-- **C9 (counterexample).**  Normalization is not idempotent: on
`http://a.com/x//` one application removes a single trailing slash, giving
`http://a.com/x/`, and a second application removes another. -/
theorem normalizeUrl_idem_counterexample :
    normalizeUrl (normalizeUrl "http://a.com/x//") ≠ normalizeUrl "http://a.com/x//" ∧
    normalizeUrl "http://a.com/x//" = "http://a.com/x/" ∧
    normalizeUrl (normalizeUrl "http://a.com/x//") = "http://a.com/x" :=
  ⟨by decide, by decide, by decide⟩

/-- **C9 (amended).**  `normalize(normalize(u)) = normalize(u)` for every
malformed input (returned unchanged) and for every well-formed input whose
path does not end in a double slash; a path ending in k ≥ 2 slashes loses
one slash per application, so idempotence fails exactly there. -/
theorem normalizeUrl_idem_amended (u : String) :
    (parseUrlChars u.toList = none →
      normalizeUrl (normalizeUrl u) = normalizeUrl u) ∧
    (∀ p, parseUrlChars u.toList = some p →
      ¬ List.IsSuffix ['/', '/'] p.pathname →
      normalizeUrl (normalizeUrl u) = normalizeUrl u) :=
  ⟨fun h => normalizeUrl_idem_malformed h,
   fun _ hp hds => normalizeUrl_idem_of hp hds⟩

/-- Witness for the amended C9 at `http://a.com/x/`. -/
theorem normalizeUrl_idem_amended_witness :
    normalizeUrl (normalizeUrl "http://a.com/x/") = normalizeUrl "http://a.com/x/" :=
  (normalizeUrl_idem_amended "http://a.com/x/").2
    ⟨"http".toList, "a.com".toList, "/x/".toList, [], []⟩ (by decide) (by decide)

/-- **C6 (counterexample).**  A crawl of a site whose start page carries
links `http://a.com/x////` and `http://a.com/x//` completes with both
`http://a.com/x/` and `http://a.com/x` in the final list — two distinct
entries that normalize to the same key, so the normalization function is
not injective on the returned list. -/
theorem crawl_unique_counterexample :
    crawlWebsiteM doubleSlashEnv doubleSlashOpts "http://a.com/" 10 =
      some ⟨["http://a.com/", "http://a.com/x/", "http://a.com/x"], 3, 0⟩ ∧
    ("http://a.com/x/" ∈ ["http://a.com/", "http://a.com/x/", "http://a.com/x"] ∧
     "http://a.com/x" ∈ ["http://a.com/", "http://a.com/x/", "http://a.com/x"]) ∧
    "http://a.com/x/" ≠ "http://a.com/x" ∧
    normalizeUrl "http://a.com/x/" = normalizeUrl "http://a.com/x" := by
  exact ⟨by decide, ⟨by decide, by decide⟩, by decide, by decide⟩

/-- **C6 (amended).**  The entries of the final discovered list are pairwise
distinct (first-occurrence dedup of the once-more-normalized keys); the
normalization function is injective on the returned list whenever every
entry is a fixpoint of normalization — which can fail only for URLs whose
paths end in repeated slashes, as in the counterexample. -/
theorem crawl_urls_nodup (env : CrawlEnv) (options : CrawlOptions)
    (startUrl : String) (fuel : Nat) (r : CrawlResultM)
    (h : crawlWebsiteM env options startUrl fuel = some r) :
    r.urls.Nodup ∧
      ((∀ v ∈ r.urls, normalizeUrl v = v) →
        ∀ a ∈ r.urls, ∀ b ∈ r.urls, normalizeUrl a = normalizeUrl b → a = b) := by
  unfold crawlWebsiteM at h
  cases hseed : seedRoutes options startUrl with
  | none => rw [hseed] at h; exact absurd h (by simp)
  | some seeded =>
      rw [hseed, Option.map_eq_some'] at h
      obtain ⟨s', hrun, hr⟩ := h
      subst hr
      refine ⟨jsDedup_nodup _, ?_⟩
      intro hfix a ha b hb hab
      rw [← hfix a ha, ← hfix b hb, hab]

/-- Witness for the amended C6 at a concrete completed run. -/
theorem crawl_urls_nodup_witness :
    (["http://a.com/"] : List String).Nodup ∧
      ((∀ v ∈ (⟨["http://a.com/"], 1, 0⟩ : CrawlResultM).urls, normalizeUrl v = v) →
        ∀ a ∈ (⟨["http://a.com/"], 1, 0⟩ : CrawlResultM).urls,
        ∀ b ∈ (⟨["http://a.com/"], 1, 0⟩ : CrawlResultM).urls,
          normalizeUrl a = normalizeUrl b → a = b) :=
  crawl_urls_nodup trivialCrawlEnv ⟨0, 1, false, [], [], [], none⟩
    "http://a.com/" 2 ⟨["http://a.com/"], 1, 0⟩ (by decide)

/-- **C3 (counterexample).**  The crawl loop's navigation chain has two
attempts, not three, and its timeout budgets are equal (30000 ms each), not
strictly shrinking. -/
theorem crawlNav_counterexample :
    crawlNavChain.length = 2 ∧
    ¬ crawlNavChain.length = 3 ∧
    crawlNavChain.map Prod.snd = [30000, 30000] ∧
    ¬ List.Chain' (fun a b => b < a) (crawlNavChain.map Prod.snd) := by
  refine ⟨by decide, by decide, by decide, ?_⟩
  intro h
  rw [show crawlNavChain.map Prod.snd = [30000, 30000] from rfl] at h
  exact absurd (List.chain'_cons.mp h).1 (by decide)

/-- **C3 (amended).**  During the crawl loop the Orchestrator tries a
degrading chain of two load conditions (`domcontentloaded`, then `load`),
both with the same 30-second budget; if both attempts fail, the item is
skipped for link extraction but remains committed to the visited set and
the discovered list, nothing is enqueued, and the crawl continues with the
rest of the queue.  (The three-step `networkidle → load → domcontentloaded`
chain with a shortened final budget belongs to the screenshot
collaborator, not the crawl loop.) -/
theorem crawlNav_amended (env : CrawlEnv) (options : CrawlOptions)
    (startUrl url : String) (depth : Nat) (rest : List (String × Nat))
    (v d : List String)
    (h2 : normalizeUrl url ∉ v)
    (h3 : ¬ options.maxDepth < depth)
    (h4 : (options.sameDomainOnly && !(isSameDomain (normalizeUrl url) startUrl)) = false)
    (h5 : shouldIncludeUrl (normalizeUrl url) options = true)
    (h6 : ¬ options.maxPages ≤ (d ++ [normalizeUrl url]).length)
    (h7 : ¬ options.maxDepth ≤ depth)
    (h8 : tryNav env url = false) :
    crawlNavChain.length = 2 ∧
    crawlNavChain.map Prod.snd = [30000, 30000] ∧
    crawlStep env options startUrl ⟨(url, depth) :: rest, v, d⟩ =
      ⟨rest, v ++ [normalizeUrl url], d ++ [normalizeUrl url]⟩ := by
  refine ⟨rfl, rfl, ?_⟩
  unfold crawlStep
  dsimp only
  rw [if_neg (by simpa using h2), if_neg h3, if_neg (by simp [h4]),
    if_neg (by simp [h5]), if_neg h6, if_neg h7, if_pos (by simp [h8])]

/-- Witness for the amended C3: a failing navigation on a fresh item. -/
theorem crawlNav_amended_witness :
    crawlNavChain.length = 2 ∧
    crawlNavChain.map Prod.snd = [30000, 30000] ∧
    crawlStep trivialCrawlEnv ⟨1, 50, false, [], [], [], none⟩ "http://a.com/"
        ⟨[("http://a.com/", 0)], [], []⟩ =
      ⟨[], [normalizeUrl "http://a.com/"], [normalizeUrl "http://a.com/"]⟩ :=
  crawlNav_amended trivialCrawlEnv ⟨1, 50, false, [], [], [], none⟩ "http://a.com/"
    "http://a.com/" 0 [] [] [] (by decide) (by decide) (by decide) (by decide)
    (by decide) (by decide) (by decide)

/-- A site whose start page carries the malformed candidate `http://`. -/
def malformedLinkEnv : CrawlEnv where
  nav := fun _ _ _ => true
  evalOk := fun _ => true
  pageRawLinks := fun u => if u = "http://a.com/" then ["http://"] else []
  hasForms := fun _ => false
  formFill := fun _ => false
  afterUrl := fun u => u

/-- **C7 (counterexample).**  The malformed candidate `http://` (rejected by
the URL parser) is not dropped: it enters the `startsWith("http://")`
branch unparsed, fails soft through normalization, is enqueued into the
Frontier, and is even committed to the discovered list when
`sameDomainOnly` is off. -/
theorem extract_malformed_counterexample :
    parseUrlChars "http://".toList = none ∧
    crawlStep malformedLinkEnv ⟨3, 50, false, [], [], [], none⟩ "http://a.com/"
        ⟨[("http://a.com/", 0)], [], []⟩ =
      ⟨[("http://", 1)], ["http://a.com/"], ["http://a.com/"]⟩ ∧
    crawlWebsiteM malformedLinkEnv ⟨3, 50, false, [], [], [], none⟩ "http://a.com/" 10 =
      some ⟨["http://a.com/", "http://"], 2, 0⟩ :=
  ⟨by decide, by decide, by decide⟩

/-- **C7 (amended).**  A malformed candidate that reaches the relative
resolution branch — one with no `http://`, `https://`, `//` or `/` leading
text, whose resolution against the base the URL parser rejects — is dropped
silently during extraction and contributes nothing to the extracted links
(hence is never enqueued); candidates the parser rejects that carry one of
those absolute/root forms fall through normalization unchanged and can be
enqueued, as the counterexample shows. -/
theorem extract_malformed_amended (b : UrlParts) (l : String) (pre post : List String)
    (h1 : strStarts l "http://" = false) (h2 : strStarts l "https://" = false)
    (h3 : strStarts l "//" = false) (h4 : strStarts l "/" = false)
    (h5 : resolveRel l b = none) :
    resolveCandidate b l = none ∧
      processLinks b (pre ++ l :: post) = processLinks b (pre ++ post) := by
  have hrc : resolveCandidate b l = none := by
    unfold resolveCandidate
    rw [if_neg (by simp [h1, h2]), if_neg (by simp [h3]), if_neg (by simp [h4]), h5]
    rfl
  refine ⟨hrc, ?_⟩
  unfold processLinks
  rw [List.filterMap_append, List.filterMap_append, List.filterMap_cons_none hrc]

/-- Witness for the amended C7: `foo://` resolved against `http://a.com/`. -/
theorem extract_malformed_amended_witness :
    resolveCandidate ⟨"http".toList, "a.com".toList, "/".toList, [], []⟩ "foo://" = none ∧
      processLinks ⟨"http".toList, "a.com".toList, "/".toList, [], []⟩
          (["http://a.com/x"] ++ "foo://" :: []) =
        processLinks ⟨"http".toList, "a.com".toList, "/".toList, [], []⟩
          (["http://a.com/x"] ++ []) :=
  extract_malformed_amended ⟨"http".toList, "a.com".toList, "/".toList, [], []⟩
    "foo://" ["http://a.com/x"] [] (by decide) (by decide) (by decide) (by decide)
    (by decide)

/-- A site whose start page hosts a form that redirects to `/u2`, with a
second page `/p` linking to `/u2` organically. -/
def formRedirectEnv : CrawlEnv where
  nav := fun _ _ _ => true
  evalOk := fun _ => true
  pageRawLinks := fun u =>
    if u = "http://a.com/u2" then ["/p"]
    else if u = "http://a.com/p" then ["/u2"]
    else []
  hasForms := fun u => u = "http://a.com/"
  formFill := fun u => u = "http://a.com/"
  afterUrl := fun _ => "http://a.com/u2"

/-- Options for the form-redirect crawl. -/
def formRedirectOpts : CrawlOptions := ⟨5, 50, true, [], [], [], none⟩

/-- **C1 (counterexample).**  In the crawl loop a fired fill-and-submit
cycle that moves the page from `U1 = http://a.com/` to `U2 =
http://a.com/u2` does **not** register `U2` into the visited set: after the
form iteration the visited set holds only `U1`, and when another page later
links to `U2` it is enqueued as a Frontier item and discovered. -/
theorem form_visited_counterexample :
    (autoFillEnabled formRedirectOpts && formRedirectEnv.hasForms "http://a.com/" &&
      formRedirectEnv.formFill "http://a.com/") = true ∧
    formRedirectEnv.afterUrl "http://a.com/" = "http://a.com/u2" ∧
    crawlStep formRedirectEnv formRedirectOpts "http://a.com/"
        ⟨[("http://a.com/", 0)], [], []⟩ =
      ⟨[("http://a.com/p", 1)], ["http://a.com/"], ["http://a.com/"]⟩ ∧
    crawlWebsiteM formRedirectEnv formRedirectOpts "http://a.com/" 10 =
      some ⟨["http://a.com/", "http://a.com/p", "http://a.com/u2"], 3, 0⟩ :=
  ⟨by decide, by decide, by decide, by decide⟩

lemma shotStep_captured_mono (env : ShotEnv) (cfg : Option Bool) (t : ShotState)
    (u : String) : ∀ x ∈ t.captured, x ∈ (shotStep env cfg t u).captured := by
  intro x hx
  unfold shotStep
  dsimp only
  split_ifs <;> simp [hx]

lemma shotRun_captured_mono (env : ShotEnv) (cfg : Option Bool) :
    ∀ (us : List String) (t : ShotState) (x : String),
      x ∈ t.captured → x ∈ (shotRun env cfg t us).captured := by
  intro us
  induction us with
  | nil => intro t x hx; exact hx
  | cons u us ih =>
      intro t x hx
      exact ih _ _ (shotStep_captured_mono env cfg t u x hx)

/-- **C1 (amended).**  The register-without-requeue behaviour lives in the
screenshot collaborator, not the crawler: when `captureScreenshots` fires a
fill-and-submit cycle on a page and the settled normalized URL `V` differs
from the original's, it adds `V` directly to its `capturedUrls` set; once
`V` is in that set it stays there for the rest of the run, and any later
list entry normalizing to `V` is skipped without being captured again. -/
theorem shot_capture_registered (env : ShotEnv) (cfg : Option Bool) (s : ShotState)
    (url : String)
    (hnotyet : normalizeUrl url ∉ s.captured)
    (hnav : env.navOk url = true)
    (hform : env.hasForm url = true)
    (hcfg : (cfg == some false) = false)
    (hfill : env.fillOk url = true)
    (hchanged : normalizeUrl (env.afterUrl url) ≠ normalizeUrl url) :
    normalizeUrl (env.afterUrl url) ∈ (shotStep env cfg s url).captured ∧
    (∀ (t : ShotState) (u2 : String),
      normalizeUrl (env.afterUrl url) ∈ t.captured →
      normalizeUrl u2 = normalizeUrl (env.afterUrl url) →
      shotStep env cfg t u2 = t) ∧
    (∀ (t : ShotState) (us : List String) (x : String),
      x ∈ t.captured → x ∈ (shotRun env cfg t us).captured) := by
  refine ⟨?_, ?_, ?_⟩
  · unfold shotStep
    dsimp only
    rw [if_neg (by simpa using hnotyet), if_neg (by simp [hnav]),
      if_pos (by simp [hform, hcfg]), if_pos hfill]
    simp only [if_pos hchanged]
    simp
  · intro t u2 hmem hequ
    unfold shotStep
    rw [if_pos (show t.captured.contains (normalizeUrl u2) = true by
      rw [hequ]; simpa using hmem)]
  · exact fun t us x hx => shotRun_captured_mono env cfg us t x hx

/-- A screenshot-phase browser with a redirecting form on the start page. -/
def formShotEnv : ShotEnv :=
  ⟨fun _ => true, fun u => u = "http://a.com/", fun _ => true,
    fun _ => "http://a.com/u2"⟩

/-- Witness for the amended C1: after the form fires on `http://a.com/`,
the new URL is in the captured set and the same URL presented again is
skipped (the state is unchanged). -/
theorem shot_capture_registered_witness :
    normalizeUrl (formShotEnv.afterUrl "http://a.com/") ∈
      (shotStep formShotEnv none ⟨[], []⟩ "http://a.com/").captured ∧
    shotStep formShotEnv none (shotStep formShotEnv none ⟨[], []⟩ "http://a.com/")
        "http://a.com/u2" =
      shotStep formShotEnv none ⟨[], []⟩ "http://a.com/" :=
  ⟨(shot_capture_registered formShotEnv none ⟨[], []⟩ "http://a.com/"
      (by decide) (by decide) (by decide) (by decide) (by decide) (by decide)).1,
   (shot_capture_registered formShotEnv none ⟨[], []⟩ "http://a.com/"
      (by decide) (by decide) (by decide) (by decide) (by decide) (by decide)).2.1
     (shotStep formShotEnv none ⟨[], []⟩ "http://a.com/") "http://a.com/u2"
     ((shot_capture_registered formShotEnv none ⟨[], []⟩ "http://a.com/"
        (by decide) (by decide) (by decide) (by decide) (by decide) (by decide)).1)
     (by decide)⟩

end VWG
